import Mathlib

/-!
Verification of the `accsr` remote-storage synchronization engine
(`RemoteStorage.push` / `pull` / `delete`), as described by the repository's
documentation.  The Python module implementing `RemoteStorage` is not part of
the distributed sources, so the engine is modelled from the specification:
every definition below whose doc comment starts with `Modelled from the spec:`
embeds a component that the specification describes (PathIndexer over trees,
PatternFilter, DiffPlanner, CollisionGuard, TransactionExecutor, SyncSummary).
Trees are association lists from relative paths to file objects; the content
hash function and the per-path transfer-success oracle of the storage
capability are parameters.
-/

namespace Accsr

/-- Modelled from the spec: a stored object — its raw bytes and whether it is
a directory.  The missing source is `accsr/remote_storage.py`; the spec's
`ContentDescriptor` `{relative_path, size, content_hash, is_directory}` is
derived from this plus the hash function (`size` = byte length,
`content_hash` = hash of the bytes). -/
structure FileObject where
  bytes : String
  isDir : Bool
deriving DecidableEq, Repr

/-- A side of the synchronization (local subtree or remote namespace),
as a finite association list from relative path to object. -/
abbrev Tree := List (String × FileObject)

/-- Look a relative path up in a tree (first entry wins). -/
def Tree.lookup : Tree → String → Option FileObject
  | [], _ => none
  | (q, o) :: t, p => if q = p then some o else Tree.lookup t p

/-- The relative paths recorded in a tree. -/
def Tree.keys (t : Tree) : List String := t.map Prod.fst

/-- Insert or overwrite the object at a relative path. -/
def Tree.insert : Tree → String → FileObject → Tree
  | [], p, o => [(p, o)]
  | (q, u) :: t, p, o => if q = p then (p, o) :: t else (q, u) :: Tree.insert t p o

/-- Modelled from the spec: glob matching (`fnmatch`-style `*` and `?`) over
character lists, used by the PatternFilter for `include_glob`/`exclude_glob`.
The missing source is `accsr/remote_storage.py`. -/
def globMatchFuel : Nat → List Char → List Char → Bool
  | 0, _, _ => false
  | _ + 1, [], [] => true
  | _ + 1, [], _ :: _ => false
  | n + 1, '*' :: ps, [] => globMatchFuel n ps []
  | n + 1, '*' :: ps, c :: ss =>
      globMatchFuel n ps (c :: ss) || globMatchFuel n ('*' :: ps) ss
  | _ + 1, '?' :: _, [] => false
  | n + 1, '?' :: ps, _ :: ss => globMatchFuel n ps ss
  | _ + 1, _ :: _, [] => false
  | n + 1, p :: ps, c :: ss => if p = c then globMatchFuel n ps ss else false

/-- Glob matching with enough fuel for the recursion (each step consumes a
pattern character or a subject character). -/
def globMatchL (ps ss : List Char) : Bool :=
  globMatchFuel (ps.length + ss.length + 1) ps ss

/-- Modelled from the spec: regular-expression full matching for the subset
`.`, `x*` (zero or more), literals — enough for the patterns the spec uses,
e.g. `.*secret.*`.  The missing source is `accsr/remote_storage.py`. -/
def regexMatchFuel : Nat → List Char → List Char → Bool
  | 0, _, _ => false
  | _ + 1, [], ss => ss.isEmpty
  | n + 1, _ :: '*' :: ps, [] => regexMatchFuel n ps []
  | n + 1, p :: '*' :: ps, c :: ss =>
      regexMatchFuel n ps (c :: ss) ||
        (if p = '.' ∨ p = c then regexMatchFuel n (p :: '*' :: ps) ss else false)
  | _ + 1, _ :: _, [] => false
  | n + 1, p :: ps, c :: ss =>
      if p = '.' ∨ p = c then regexMatchFuel n ps ss else false

/-- Regex full matching with enough fuel for the recursion (each step consumes
pattern characters or a subject character). -/
def regexMatchL (ps ss : List Char) : Bool :=
  regexMatchFuel (ps.length + ss.length + 1) ps ss

/-- Glob matching on strings. -/
def globMatches (pat s : String) : Bool := globMatchL pat.toList s.toList

/-- Regex matching on strings. -/
def regexMatches (pat s : String) : Bool := regexMatchL pat.toList s.toList

/-- Modelled from the spec: the optional glob/regex include/exclude filters of
a push/pull call.  The missing source is `accsr/remote_storage.py`. -/
structure Filters where
  includeGlob : Option String
  excludeGlob : Option String
  includeRegex : Option String
  excludeRegex : Option String
deriving Repr

/-- The filter object selecting everything (all four filters absent). -/
def Filters.trivialF : Filters := ⟨none, none, none, none⟩

/-- Modelled from the spec: PatternFilter semantics — a path is included iff
(no include filters are given, or it matches at least one include filter) AND
(no exclude filters are given, or it matches none of the exclude filters).
The missing source is `accsr/remote_storage.py`. -/
def Filters.matches (f : Filters) (p : String) : Bool :=
  (match f.includeGlob, f.includeRegex with
    | none, none => true
    | some g, none => globMatches g p
    | none, some r => regexMatches r p
    | some g, some r => globMatches g p || regexMatches r p) &&
  (match f.excludeGlob with
    | none => true
    | some g => !globMatches g p) &&
  (match f.excludeRegex with
    | none => true
    | some r => !regexMatches r p)

/-- The classification the DiffPlanner gives one relative path. -/
inductive PathClass where
  | sourceOnly
  | targetOnly
  | unchanged
  | conflict
  | typeConflict
  | absent
deriving DecidableEq, Repr

/-- Modelled from the spec: the DiffPlanner's per-path decision.  Content-hash
equality is the sole criterion for "unchanged"; a type mismatch (directory vs
file) is always a collision.  The missing source is
`accsr/remote_storage.py`. -/
def classify (h : String → String) (source target : Tree) (p : String) : PathClass :=
  match source.lookup p, target.lookup p with
  | some _, none => .sourceOnly
  | none, some _ => .targetOnly
  | some o, some u =>
      if o.isDir ≠ u.isDir then .typeConflict
      else if h o.bytes = h u.bytes then .unchanged
      else .conflict
  | none, none => .absent

/-- The deduplicated union of both sides' paths, restricted to the filter —
the domain of the sync plan. -/
def filteredPaths (f : Filters) (source target : Tree) : List String :=
  ((source.keys ++ target.keys).dedup).filter f.matches

/-- Modelled from the spec: the SyncPlan the DiffPlanner produces —
each participating path classified, plus the matched-file sets.
The missing source is `accsr/remote_storage.py`. -/
structure SyncPlan where
  toTransfer : List String
  conflicts : List String
  typeConflicts : List String
  unchanged : List String
  notOnSource : List String
  matchedSource : List String
  matchedTarget : List String
deriving Repr

/-- Modelled from the spec: DiffPlanner — compare the filtered union of both
indexes and classify every path.  The missing source is
`accsr/remote_storage.py`. -/
def mkPlan (h : String → String) (f : Filters) (source target : Tree) : SyncPlan :=
  let ps := filteredPaths f source target
  { toTransfer := ps.filter (fun p => classify h source target p = .sourceOnly)
    conflicts := ps.filter (fun p => classify h source target p = .conflict)
    typeConflicts := ps.filter (fun p => classify h source target p = .typeConflict)
    unchanged := ps.filter (fun p => classify h source target p = .unchanged)
    notOnSource := ps.filter (fun p => classify h source target p = .targetOnly)
    matchedSource := ps.filter (fun p => (source.lookup p).isSome)
    matchedTarget := ps.filter (fun p => (target.lookup p).isSome) }

/-- All paths participating in a plan's classification. -/
def SyncPlan.paths (pl : SyncPlan) : List String :=
  pl.toTransfer ++ pl.conflicts ++ pl.typeConflicts ++ pl.unchanged ++ pl.notOnSource

/-- Why a path is a collision. -/
inductive CollisionReason where
  | hashMismatch
  | typeMismatch
deriving DecidableEq, Repr

/-- Modelled from the spec: `CollisionRecord` `{relative_path, reason}`.
The missing source is `accsr/remote_storage.py`. -/
structure CollisionRecord where
  relativePath : String
  reason : CollisionReason
deriving DecidableEq, Repr

/-- Modelled from the spec: CollisionGuard — the fatal collisions of a plan.
Type mismatches are fatal regardless of `force`; hash mismatches are fatal
only when `force = false` (with `force = true` they are resolved by the acting
direction overwriting the target).  The missing source is
`accsr/remote_storage.py`. -/
def validate (pl : SyncPlan) (force : Bool) : List CollisionRecord :=
  pl.typeConflicts.map (fun p => ⟨p, .typeMismatch⟩) ++
    (if force then [] else pl.conflicts.map (fun p => ⟨p, .hashMismatch⟩))

/-- An invocation of the storage capability (recorded so that "the capability
is never invoked" is a provable statement). -/
inductive StorageOp where
  | put (path : String)
deriving DecidableEq, Repr

/-- Modelled from the spec: `SyncSummary` — what was matched, what needed
syncing, what was actually synced, and the per-file transfer errors.
The missing source is `accsr/remote_storage.py`. -/
structure SyncSummary where
  synced_files : List String
  not_on_target : List String
  not_on_source : List String
  matched_source_files : List String
  matched_target_files : List String
  collisions : List CollisionRecord
  sync_errors : List String
  dryrun : Bool
deriving DecidableEq, Repr

/-- State threaded through the TransactionExecutor's per-file loop. -/
structure ExecState where
  target : Tree
  synced : List String
  errors : List String
  ops : List StorageOp
deriving Repr

/-- Modelled from the spec: one per-file transfer of the TransactionExecutor.
`ok p` is the storage capability succeeding on path `p`; a failed transfer is
recorded and the batch continues.  The missing source is
`accsr/remote_storage.py`. -/
def execStep (source : Tree) (ok : String → Bool) (st : ExecState) (p : String) : ExecState :=
  match source.lookup p with
  | none => st
  | some o =>
      if ok p then
        { target := st.target.insert p o
          synced := st.synced ++ [p]
          errors := st.errors
          ops := st.ops ++ [.put p] }
      else
        { st with errors := st.errors ++ [p], ops := st.ops ++ [.put p] }

/-- Run all transfers of a batch, best-effort, left to right. -/
def runTransfers (source : Tree) (ok : String → Bool) (ps : List String)
    (st : ExecState) : ExecState :=
  ps.foldl (execStep source ok) st

/-- The batch of transfers a real (non-dryrun) execution performs: the
source-only paths, plus — when `force` is set — the hash-mismatch paths that
`force` resolves by overwriting the target. -/
def planTransfers (h : String → String) (f : Filters) (source target : Tree)
    (force : Bool) : List String :=
  (mkPlan h f source target).toTransfer ++
    (if force then (mkPlan h f source target).conflicts else [])

/-- Result of one push/pull invocation: the outcome (a `SyncSummary` or a
`CollisionError` carrying the collision set), the resulting target tree, and
the storage-capability invocations that took place. -/
structure SyncResult where
  outcome : Except (List CollisionRecord) SyncSummary
  newTarget : Tree
  ops : List StorageOp

/-- Modelled from the spec: the whole engine for one direction —
DiffPlanner, then CollisionGuard (fail-fast: a non-empty fatal collision set
rejects the plan with nothing executed), then the TransactionExecutor in
dry-run or real mode.  The missing source is `accsr/remote_storage.py`. -/
def syncExec (h : String → String) (ok : String → Bool) (f : Filters)
    (force dryrun : Bool) (source target : Tree) : SyncResult :=
  let pl := mkPlan h f source target
  let fatal := validate pl force
  if fatal.isEmpty then
    if dryrun then
      { outcome := .ok
          { synced_files := []
            not_on_target := pl.toTransfer
            not_on_source := pl.notOnSource
            matched_source_files := pl.matchedSource
            matched_target_files := pl.matchedTarget
            collisions := []
            sync_errors := []
            dryrun := true }
        newTarget := target
        ops := [] }
    else
      let st := runTransfers source ok (planTransfers h f source target force) ⟨target, [], [], []⟩
      { outcome := .ok
          { synced_files := st.synced
            not_on_target := pl.toTransfer
            not_on_source := pl.notOnSource
            matched_source_files := pl.matchedSource
            matched_target_files := pl.matchedTarget
            collisions := []
            sync_errors := st.errors
            dryrun := false }
        newTarget := st.target
        ops := st.ops }
  else
    { outcome := .error fatal, newTarget := target, ops := [] }

/-- Result of a push/pull call at the `RemoteStorage` surface: outcome plus
the local tree and the remote namespace after the call. -/
structure CallResult where
  outcome : Except (List CollisionRecord) SyncSummary
  localTree : Tree
  remoteTree : Tree
  ops : List StorageOp

namespace RemoteStorage

/-- Modelled from the spec: `RemoteStorage.push` — local is the source, the
remote namespace is the target.  The missing source is
`accsr/remote_storage.py`. -/
def push (h : String → String) (ok : String → Bool) (f : Filters)
    (force dryrun : Bool) (l r : Tree) : CallResult :=
  let s := syncExec h ok f force dryrun l r
  ⟨s.outcome, l, s.newTarget, s.ops⟩

/-- Modelled from the spec: `RemoteStorage.pull` — the remote namespace is the
source, local is the target.  The missing source is
`accsr/remote_storage.py`. -/
def pull (h : String → String) (ok : String → Bool) (f : Filters)
    (force dryrun : Bool) (l r : Tree) : CallResult :=
  let s := syncExec h ok f force dryrun r l
  ⟨s.outcome, s.newTarget, r, s.ops⟩

/-- Modelled from the spec: `RemoteStorage.delete` — explicitly remove the
remote object at `path` (and any objects under the namespace `path ++ "/"`),
returning the deleted paths and the new remote namespace.  The missing source
is `accsr/remote_storage.py`. -/
def delete (path : String) (r : Tree) : List String × Tree :=
  ((r.filter (fun e => decide (e.1 = path ∨ (path ++ "/").isPrefixOf e.1))).map Prod.fst,
    r.filter (fun e => !decide (e.1 = path ∨ (path ++ "/").isPrefixOf e.1)))

end RemoteStorage

/-- The identity content-hash function (used to instantiate concrete cases). -/
def hashId : String → String := fun s => s

/-- The storage capability succeeding on every path. -/
def okAll : String → Bool := fun _ => true

/-- A hash-mismatch collision between `s` and `t` at `p`: the path participates
(filter accepts it), both sides hold an object of the same type, and the
content hashes differ. -/
def hashCollisionAt (h : String → String) (f : Filters) (s t : Tree) (p : String) : Prop :=
  f.matches p = true ∧ ∃ o u, s.lookup p = some o ∧ t.lookup p = some u ∧
    o.isDir = u.isDir ∧ h o.bytes ≠ h u.bytes

/-- A type-mismatch collision between `s` and `t` at `p`: the path
participates and one side is a directory while the other is a file. -/
def typeCollisionAt (f : Filters) (s t : Tree) (p : String) : Prop :=
  f.matches p = true ∧ ∃ o u, s.lookup p = some o ∧ t.lookup p = some u ∧
    o.isDir ≠ u.isDir

/-- Any collision at `p`. -/
def collisionAt (h : String → String) (f : Filters) (s t : Tree) (p : String) : Prop :=
  hashCollisionAt h f s t p ∨ typeCollisionAt f s t p

/-! ### Basic lemmas about trees -/

@[simp]
theorem Tree.lookup_nil (p : String) : Tree.lookup [] p = none := rfl

theorem Tree.lookup_insert_self (t : Tree) (p : String) (o : FileObject) :
    (t.insert p o).lookup p = some o := by
  induction t with
  | nil => simp [Tree.insert, Tree.lookup]
  | cons e t ih =>
      obtain ⟨q, u⟩ := e
      by_cases hqp : q = p
      · simp [Tree.insert, Tree.lookup, hqp]
      · simp [Tree.insert, Tree.lookup, hqp, ih]

theorem Tree.lookup_insert_of_ne (t : Tree) (p : String) (o : FileObject)
    (q : String) (hne : p ≠ q) : (t.insert p o).lookup q = t.lookup q := by
  induction t with
  | nil => simp [Tree.insert, Tree.lookup, hne]
  | cons e t ih =>
      obtain ⟨q', u⟩ := e
      by_cases hq'p : q' = p
      · subst hq'p
        simp [Tree.insert, Tree.lookup, hne]
      · by_cases hq'q : q' = q
        · simp [Tree.insert, Tree.lookup, hq'p, hq'q, Ne.symm hne]
        · simp [Tree.insert, Tree.lookup, hq'p, hq'q, ih]

theorem Tree.lookup_isSome_iff (t : Tree) (p : String) :
    (t.lookup p).isSome = true ↔ p ∈ t.keys := by
  induction t with
  | nil => simp [Tree.lookup, Tree.keys]
  | cons e t ih =>
      obtain ⟨q, u⟩ := e
      by_cases hqp : q = p
      · simp [Tree.lookup, Tree.keys, hqp]
      · simp [Tree.lookup, Tree.keys, hqp, ih, Ne.symm hqp]

/-! ### Lemmas about the plan's path domain -/

theorem trivialF_matches (p : String) : Filters.trivialF.matches p = true := rfl

theorem mem_filteredPaths (f : Filters) (s t : Tree) (p : String) :
    p ∈ filteredPaths f s t ↔ (p ∈ s.keys ∨ p ∈ t.keys) ∧ f.matches p = true := by
  simp [filteredPaths, List.mem_filter, List.mem_dedup, List.mem_append]

theorem nodup_filteredPaths (f : Filters) (s t : Tree) :
    (filteredPaths f s t).Nodup :=
  (List.nodup_dedup _).filter _

/-! ### Inversion lemmas for the planner's classification -/

theorem classify_eq_sourceOnly_iff (h : String → String) (s t : Tree) (p : String) :
    classify h s t p = .sourceOnly ↔
      (∃ o, s.lookup p = some o) ∧ t.lookup p = none := by
  unfold classify
  rcases hs : s.lookup p with _ | o <;> rcases ht : t.lookup p with _ | u <;>
    simp [hs, ht]
  split_ifs <;> simp

theorem classify_eq_targetOnly_iff (h : String → String) (s t : Tree) (p : String) :
    classify h s t p = .targetOnly ↔
      s.lookup p = none ∧ (∃ u, t.lookup p = some u) := by
  unfold classify
  rcases hs : s.lookup p with _ | o <;> rcases ht : t.lookup p with _ | u <;>
    simp [hs, ht]
  split_ifs <;> simp

theorem classify_eq_conflict_iff (h : String → String) (s t : Tree) (p : String) :
    classify h s t p = .conflict ↔
      ∃ o u, s.lookup p = some o ∧ t.lookup p = some u ∧
        o.isDir = u.isDir ∧ h o.bytes ≠ h u.bytes := by
  unfold classify
  rcases hs : s.lookup p with _ | o <;> rcases ht : t.lookup p with _ | u <;>
    simp [hs, ht]
  split_ifs <;> simp_all

theorem classify_eq_typeConflict_iff (h : String → String) (s t : Tree) (p : String) :
    classify h s t p = .typeConflict ↔
      ∃ o u, s.lookup p = some o ∧ t.lookup p = some u ∧ o.isDir ≠ u.isDir := by
  unfold classify
  rcases hs : s.lookup p with _ | o <;> rcases ht : t.lookup p with _ | u <;>
    simp [hs, ht]
  split_ifs <;> simp_all

/-! ### Lemmas about the per-file transfer loop -/

theorem runTransfers_nil (source : Tree) (ok : String → Bool) (st : ExecState) :
    runTransfers source ok [] st = st := rfl

theorem runTransfers_cons (source : Tree) (ok : String → Bool) (p : String)
    (ps : List String) (st : ExecState) :
    runTransfers source ok (p :: ps) st =
      runTransfers source ok ps (execStep source ok st p) := rfl

theorem runTransfers_lookup_none (source : Tree) (ok : String → Bool)
    (ps : List String) (st : ExecState) (q : String)
    (hq : source.lookup q = none) :
    (runTransfers source ok ps st).target.lookup q = st.target.lookup q := by
  induction ps generalizing st with
  | nil => rfl
  | cons p ps ih =>
      rw [runTransfers_cons, ih]
      unfold execStep
      rcases hp : source.lookup p with _ | o
      · rfl
      · have hpq : p ≠ q := by
          intro hcontra
          rw [hcontra, hq] at hp
          exact Option.noConfusion hp
        split_ifs <;> simp [Tree.lookup_insert_of_ne _ _ _ _ hpq]

theorem runTransfers_lookup_not_mem (source : Tree) (ok : String → Bool)
    (ps : List String) (st : ExecState) (q : String) (hq : q ∉ ps) :
    (runTransfers source ok ps st).target.lookup q = st.target.lookup q := by
  induction ps generalizing st with
  | nil => rfl
  | cons p ps ih =>
      have hpq : p ≠ q := fun hc => hq (hc ▸ List.mem_cons_self p ps)
      have hq' : q ∉ ps := fun hc => hq (List.mem_cons_of_mem _ hc)
      rw [runTransfers_cons, ih _ hq']
      unfold execStep
      rcases hp : source.lookup p with _ | o
      · rfl
      · split_ifs <;> simp [Tree.lookup_insert_of_ne _ _ _ _ hpq]

theorem runTransfers_lookup_not_ok (source : Tree) (ok : String → Bool)
    (ps : List String) (st : ExecState) (q : String) (hq : ok q = false) :
    (runTransfers source ok ps st).target.lookup q = st.target.lookup q := by
  induction ps generalizing st with
  | nil => rfl
  | cons p ps ih =>
      rw [runTransfers_cons, ih]
      unfold execStep
      rcases hp : source.lookup p with _ | o
      · rfl
      · by_cases hpq : p = q
        · subst hpq
          simp [hq]
        · split_ifs <;> simp [Tree.lookup_insert_of_ne _ _ _ _ hpq]

theorem runTransfers_lookup_mem (source : Tree) (ok : String → Bool)
    (ps : List String) (st : ExecState) (q : String) (o : FileObject)
    (hmem : q ∈ ps) (hok : ok q = true) (hq : source.lookup q = some o) :
    (runTransfers source ok ps st).target.lookup q = some o := by
  induction ps generalizing st with
  | nil => exact absurd hmem (List.not_mem_nil q)
  | cons p ps ih =>
      rw [runTransfers_cons]
      by_cases hqps : q ∈ ps
      · exact ih _ hqps
      · have hpq : p = q := by
          rcases List.mem_cons.mp hmem with hh | hh
          · exact hh.symm
          · exact absurd hh hqps
        subst hpq
        rw [runTransfers_lookup_not_mem _ _ _ _ _ hqps]
        unfold execStep
        rw [hq, hok]
        simp [Tree.lookup_insert_self]

theorem runTransfers_synced (source : Tree) (ok : String → Bool)
    (ps : List String) (st : ExecState) :
    (runTransfers source ok ps st).synced =
      st.synced ++ ps.filter (fun p => ok p && (source.lookup p).isSome) := by
  induction ps generalizing st with
  | nil => simp [runTransfers_nil]
  | cons p ps ih =>
      rw [runTransfers_cons, ih]
      unfold execStep
      rcases hp : source.lookup p with _ | o <;>
        · simp only [List.filter_cons, hp]
          split_ifs <;> simp_all

theorem runTransfers_errors (source : Tree) (ok : String → Bool)
    (ps : List String) (st : ExecState) :
    (runTransfers source ok ps st).errors =
      st.errors ++ ps.filter (fun p => !ok p && (source.lookup p).isSome) := by
  induction ps generalizing st with
  | nil => simp [runTransfers_nil]
  | cons p ps ih =>
      rw [runTransfers_cons, ih]
      unfold execStep
      rcases hp : source.lookup p with _ | o <;>
        · simp only [List.filter_cons, hp]
          split_ifs <;> simp_all

theorem classify_eq_unchanged_iff (h : String → String) (s t : Tree) (p : String) :
    classify h s t p = .unchanged ↔
      ∃ o u, s.lookup p = some o ∧ t.lookup p = some u ∧
        o.isDir = u.isDir ∧ h o.bytes = h u.bytes := by
  unfold classify
  rcases hs : s.lookup p with _ | o <;> rcases ht : t.lookup p with _ | u <;>
    simp [hs, ht]
  split_ifs <;> simp_all

/-! ### Membership in the plan's components -/

theorem mem_toTransfer_iff (h : String → String) (f : Filters) (s t : Tree) (p : String) :
    p ∈ (mkPlan h f s t).toTransfer ↔
      p ∈ filteredPaths f s t ∧ classify h s t p = .sourceOnly := by
  simp [mkPlan, List.mem_filter]

theorem mem_conflicts_iff (h : String → String) (f : Filters) (s t : Tree) (p : String) :
    p ∈ (mkPlan h f s t).conflicts ↔
      p ∈ filteredPaths f s t ∧ classify h s t p = .conflict := by
  simp [mkPlan, List.mem_filter]

theorem mem_typeConflicts_iff (h : String → String) (f : Filters) (s t : Tree) (p : String) :
    p ∈ (mkPlan h f s t).typeConflicts ↔
      p ∈ filteredPaths f s t ∧ classify h s t p = .typeConflict := by
  simp [mkPlan, List.mem_filter]

theorem mem_unchanged_iff (h : String → String) (f : Filters) (s t : Tree) (p : String) :
    p ∈ (mkPlan h f s t).unchanged ↔
      p ∈ filteredPaths f s t ∧ classify h s t p = .unchanged := by
  simp [mkPlan, List.mem_filter]

theorem mem_notOnSource_iff (h : String → String) (f : Filters) (s t : Tree) (p : String) :
    p ∈ (mkPlan h f s t).notOnSource ↔
      p ∈ filteredPaths f s t ∧ classify h s t p = .targetOnly := by
  simp [mkPlan, List.mem_filter]

/-- Every path of the filtered union is classified, and into a class that is
not `absent`; hence it shows up in exactly the component its class names. -/
theorem mem_plan_paths_iff (h : String → String) (f : Filters) (s t : Tree) (p : String) :
    p ∈ (mkPlan h f s t).paths ↔ p ∈ filteredPaths f s t := by
  constructor
  · intro hp
    simp only [SyncPlan.paths, List.mem_append] at hp
    rcases hp with ((((hp | hp) | hp) | hp) | hp) <;>
      simp [mkPlan, List.mem_filter] at hp <;> exact hp.1
  · intro hp
    have hcl : classify h s t p ≠ .absent := by
      intro habs
      have hmem := (mem_filteredPaths f s t p).mp hp
      unfold classify at habs
      rcases hs : s.lookup p with _ | o <;> rcases ht : t.lookup p with _ | u <;>
        rw [hs, ht] at habs
      · rcases hmem.1 with hk | hk
        · exact absurd ((Tree.lookup_isSome_iff s p).mpr hk) (by simp [hs])
        · exact absurd ((Tree.lookup_isSome_iff t p).mpr hk) (by simp [ht])
      · exact PathClass.noConfusion habs
      · exact PathClass.noConfusion habs
      · dsimp only at habs
        split_ifs at habs
    simp only [SyncPlan.paths, List.mem_append, mem_toTransfer_iff, mem_conflicts_iff,
      mem_typeConflicts_iff, mem_unchanged_iff, mem_notOnSource_iff]
    rcases hc : classify h s t p <;> simp_all

/-! ### The CollisionGuard -/

theorem validate_eq_nil_iff (pl : SyncPlan) (force : Bool) :
    validate pl force = [] ↔
      pl.typeConflicts = [] ∧ (force = false → pl.conflicts = []) := by
  unfold validate
  cases force <;> simp

theorem typeCollisionAt_iff_mem (h : String → String) (f : Filters) (s t : Tree) (q : String) :
    typeCollisionAt f s t q ↔
      q ∈ filteredPaths f s t ∧ classify h s t q = .typeConflict := by
  rw [classify_eq_typeConflict_iff, mem_filteredPaths]
  constructor
  · rintro ⟨hm, o, u, hs, ht, hd⟩
    exact ⟨⟨Or.inl ((Tree.lookup_isSome_iff s q).mp (by simp [hs])), hm⟩, o, u, hs, ht, hd⟩
  · rintro ⟨⟨_, hm⟩, o, u, hs, ht, hd⟩
    exact ⟨hm, o, u, hs, ht, hd⟩

theorem hashCollisionAt_iff_mem (h : String → String) (f : Filters) (s t : Tree) (q : String) :
    hashCollisionAt h f s t q ↔
      q ∈ filteredPaths f s t ∧ classify h s t q = .conflict := by
  rw [classify_eq_conflict_iff, mem_filteredPaths]
  constructor
  · rintro ⟨hm, o, u, hs, ht, hd, hh⟩
    exact ⟨⟨Or.inl ((Tree.lookup_isSome_iff s q).mp (by simp [hs])), hm⟩, o, u, hs, ht, hd, hh⟩
  · rintro ⟨⟨_, hm⟩, o, u, hs, ht, hd, hh⟩
    exact ⟨hm, o, u, hs, ht, hd, hh⟩

theorem mem_validate_type_iff (h : String → String) (f : Filters) (s t : Tree)
    (force : Bool) (q : String) :
    (⟨q, .typeMismatch⟩ : CollisionRecord) ∈ validate (mkPlan h f s t) force ↔
      typeCollisionAt f s t q := by
  unfold validate
  rw [typeCollisionAt_iff_mem h, ← mem_typeConflicts_iff]
  cases force <;> simp [List.mem_map, CollisionRecord.mk.injEq]

theorem mem_validate_hash_iff (h : String → String) (f : Filters) (s t : Tree) (q : String) :
    (⟨q, .hashMismatch⟩ : CollisionRecord) ∈ validate (mkPlan h f s t) false ↔
      hashCollisionAt h f s t q := by
  unfold validate
  rw [hashCollisionAt_iff_mem h, ← mem_conflicts_iff]
  simp [List.mem_map, CollisionRecord.mk.injEq]

theorem validate_ne_nil_of_collision (h : String → String) (f : Filters)
    (s t : Tree) (p : String) (hc : collisionAt h f s t p) :
    validate (mkPlan h f s t) false ≠ [] := by
  rcases hc with hc | hc
  · exact List.ne_nil_of_mem ((mem_validate_hash_iff h f s t p).mpr hc)
  · exact List.ne_nil_of_mem ((mem_validate_type_iff h f s t false p).mpr hc)

/-! ### Unfolding the engine by case -/

theorem syncExec_of_fatal (h : String → String) (ok : String → Bool) (f : Filters)
    (force dryrun : Bool) (s t : Tree)
    (hne : validate (mkPlan h f s t) force ≠ []) :
    syncExec h ok f force dryrun s t =
      ⟨.error (validate (mkPlan h f s t) force), t, []⟩ := by
  unfold syncExec
  rcases hl : validate (mkPlan h f s t) force with _ | ⟨c, cs⟩
  · exact absurd hl hne
  · simp [hl]

theorem syncExec_dryrun (h : String → String) (ok : String → Bool) (f : Filters)
    (force : Bool) (s t : Tree)
    (hv : validate (mkPlan h f s t) force = []) :
    syncExec h ok f force true s t =
      ⟨.ok
        { synced_files := []
          not_on_target := (mkPlan h f s t).toTransfer
          not_on_source := (mkPlan h f s t).notOnSource
          matched_source_files := (mkPlan h f s t).matchedSource
          matched_target_files := (mkPlan h f s t).matchedTarget
          collisions := []
          sync_errors := []
          dryrun := true }, t, []⟩ := by
  unfold syncExec
  simp [hv]

theorem syncExec_real (h : String → String) (ok : String → Bool) (f : Filters)
    (force : Bool) (s t : Tree)
    (hv : validate (mkPlan h f s t) force = []) :
    syncExec h ok f force false s t =
      ⟨.ok
        { synced_files :=
            (runTransfers s ok (planTransfers h f s t force) ⟨t, [], [], []⟩).synced
          not_on_target := (mkPlan h f s t).toTransfer
          not_on_source := (mkPlan h f s t).notOnSource
          matched_source_files := (mkPlan h f s t).matchedSource
          matched_target_files := (mkPlan h f s t).matchedTarget
          collisions := []
          sync_errors :=
            (runTransfers s ok (planTransfers h f s t force) ⟨t, [], [], []⟩).errors
          dryrun := false },
        (runTransfers s ok (planTransfers h f s t force) ⟨t, [], [], []⟩).target,
        (runTransfers s ok (planTransfers h f s t force) ⟨t, [], [], []⟩).ops⟩ := by
  unfold syncExec
  simp [hv]

/-- Every path in the transfer batch exists on the source. -/
theorem planTransfers_isSome (h : String → String) (f : Filters) (s t : Tree)
    (force : Bool) (p : String) (hp : p ∈ planTransfers h f s t force) :
    (s.lookup p).isSome = true := by
  unfold planTransfers at hp
  rcases List.mem_append.mp hp with hp | hp
  · obtain ⟨o, ho⟩ := ((mem_toTransfer_iff h f s t p).mp hp).2 |>
      (fun hc => ((classify_eq_sourceOnly_iff h s t p).mp hc).1)
    simp [ho]
  · rcases force
    · simp at hp
    · obtain ⟨o, u, ho, -⟩ :=
        (classify_eq_conflict_iff h s t p).mp ((mem_conflicts_iff h f s t p).mp hp).2
      simp [ho]

/-! ### Further helper lemmas -/

theorem collisionAt_symm (h : String → String) (f : Filters) (s t : Tree) (p : String)
    (hc : collisionAt h f s t p) : collisionAt h f t s p := by
  rcases hc with ⟨hm, o, u, hs, ht, hd, hh⟩ | ⟨hm, o, u, hs, ht, hd⟩
  · exact Or.inl ⟨hm, u, o, ht, hs, hd.symm, fun e => hh e.symm⟩
  · exact Or.inr ⟨hm, u, o, ht, hs, fun e => hd e.symm⟩

theorem classify_congr (h : String → String) (s : Tree) {t₁ t₂ : Tree} (q : String)
    (ht : t₁.lookup q = t₂.lookup q) : classify h s t₁ q = classify h s t₂ q := by
  unfold classify
  rw [ht]

theorem classify_eq_unchanged_of_same (h : String → String) (s t : Tree) (q : String)
    (o : FileObject) (hs : s.lookup q = some o) (ht : t.lookup q = some o) :
    classify h s t q = .unchanged := by
  unfold classify
  rw [hs, ht]
  simp

theorem filter_eq_singleton {α : Type} (l : List α) (pr : α → Bool) (a : α)
    (hnd : l.Nodup) (ha : a ∈ l) (hpa : pr a = true)
    (huniq : ∀ b ∈ l, pr b = true → b = a) : l.filter pr = [a] := by
  induction l with
  | nil => exact absurd ha (List.not_mem_nil a)
  | cons x l ih =>
      rcases hax : pr x with _ | _
      · have hxa : x ≠ a := fun hc => by rw [hc, hpa] at hax; exact Bool.noConfusion hax
        have ha' : a ∈ l := by
          rcases List.mem_cons.mp ha with hh | hh
          · exact absurd hh.symm hxa
          · exact hh
        rw [List.filter_cons_of_neg (by simp [hax])]
        exact ih (List.Nodup.of_cons hnd) ha'
          (fun b hb hpb => huniq b (List.mem_cons_of_mem _ hb) hpb)
      · have hxa : x = a := huniq x (List.mem_cons_self x l) hax
        subst hxa
        rw [List.filter_cons_of_pos hax]
        have : l.filter pr = [] := by
          refine List.filter_eq_nil_iff.mpr (fun b hb => ?_)
          intro hpb
          have hba := huniq b (List.mem_cons_of_mem _ hb) hpb
          subst hba
          exact (List.nodup_cons.mp hnd).1 hb
        rw [this]

theorem outcome_ok_validate_nil (h : String → String) (ok : String → Bool)
    (f : Filters) (force dryrun : Bool) (s t : Tree)
    (hok : ∃ sm, (syncExec h ok f force dryrun s t).outcome = .ok sm) :
    validate (mkPlan h f s t) force = [] := by
  obtain ⟨sm, hsm⟩ := hok
  by_contra hne
  rw [syncExec_of_fatal h ok f force dryrun s t hne] at hsm
  exact Except.noConfusion hsm

theorem syncExec_newTarget_of_source_none (h : String → String) (ok : String → Bool)
    (f : Filters) (force dryrun : Bool) (s t : Tree) (p : String)
    (hsp : s.lookup p = none) :
    (syncExec h ok f force dryrun s t).newTarget.lookup p = t.lookup p := by
  by_cases hv : validate (mkPlan h f s t) force = []
  · cases dryrun
    · rw [syncExec_real h ok f force s t hv]
      exact runTransfers_lookup_none s ok _ ⟨t, [], [], []⟩ p hsp
    · rw [syncExec_dryrun h ok f force s t hv]
  · rw [syncExec_of_fatal h ok f force dryrun s t hv]

/-! ## The claims -/

/-- C1: for every plan containing at least one collision, a push or pull call
with `force = false` (any `dryrun`) fails with a `CollisionError` carrying the
full collision set — every hash- and type-mismatch is enumerated in the error —
and executes nothing: the local tree, the remote namespace, and the
storage-operation log are exactly as before the call. -/
theorem collision_rejects_whole_plan (h : String → String) (ok : String → Bool)
    (f : Filters) (dryrun : Bool) (l r : Tree)
    (hc : ∃ p, collisionAt h f l r p) :
    ((RemoteStorage.push h ok f false dryrun l r).outcome =
        .error (validate (mkPlan h f l r) false) ∧
      validate (mkPlan h f l r) false ≠ [] ∧
      (∀ q, (⟨q, .hashMismatch⟩ : CollisionRecord) ∈ validate (mkPlan h f l r) false ↔
        hashCollisionAt h f l r q) ∧
      (∀ q, (⟨q, .typeMismatch⟩ : CollisionRecord) ∈ validate (mkPlan h f l r) false ↔
        typeCollisionAt f l r q) ∧
      (RemoteStorage.push h ok f false dryrun l r).localTree = l ∧
      (RemoteStorage.push h ok f false dryrun l r).remoteTree = r ∧
      (RemoteStorage.push h ok f false dryrun l r).ops = []) ∧
    ((RemoteStorage.pull h ok f false dryrun l r).outcome =
        .error (validate (mkPlan h f r l) false) ∧
      validate (mkPlan h f r l) false ≠ [] ∧
      (∀ q, (⟨q, .hashMismatch⟩ : CollisionRecord) ∈ validate (mkPlan h f r l) false ↔
        hashCollisionAt h f r l q) ∧
      (∀ q, (⟨q, .typeMismatch⟩ : CollisionRecord) ∈ validate (mkPlan h f r l) false ↔
        typeCollisionAt f r l q) ∧
      (RemoteStorage.pull h ok f false dryrun l r).localTree = l ∧
      (RemoteStorage.pull h ok f false dryrun l r).remoteTree = r ∧
      (RemoteStorage.pull h ok f false dryrun l r).ops = []) := by
  obtain ⟨p, hp⟩ := hc
  have hne1 := validate_ne_nil_of_collision h f l r p hp
  have hne2 := validate_ne_nil_of_collision h f r l p (collisionAt_symm h f l r p hp)
  have e1 := syncExec_of_fatal h ok f false dryrun l r hne1
  have e2 := syncExec_of_fatal h ok f false dryrun r l hne2
  constructor
  · refine ⟨by simp [RemoteStorage.push, e1], hne1,
      fun q => mem_validate_hash_iff h f l r q,
      fun q => mem_validate_type_iff h f l r false q,
      rfl, by simp [RemoteStorage.push, e1], by simp [RemoteStorage.push, e1]⟩
  · refine ⟨by simp [RemoteStorage.pull, e2], hne2,
      fun q => mem_validate_hash_iff h f r l q,
      fun q => mem_validate_type_iff h f r l false q,
      by simp [RemoteStorage.pull, e2], rfl, by simp [RemoteStorage.pull, e2]⟩

/-- Witness for C1 at concrete trees `{a ↦ "x"}` and `{a ↦ "y"}` with the
identity hash: the hypothesis (a collision exists) is discharged explicitly
and the theorem yields the rejected call. -/
theorem collision_rejects_whole_plan_witness :
    (∃ p, collisionAt hashId Filters.trivialF
      [("a", ⟨"x", false⟩)] [("a", ⟨"y", false⟩)] p) ∧
    (RemoteStorage.push hashId okAll Filters.trivialF false false
        [("a", ⟨"x", false⟩)] [("a", ⟨"y", false⟩)]).outcome =
      .error (validate (mkPlan hashId Filters.trivialF
        [("a", ⟨"x", false⟩)] [("a", ⟨"y", false⟩)]) false) := by
  have hc : ∃ p, collisionAt hashId Filters.trivialF
      [("a", ⟨"x", false⟩)] [("a", ⟨"y", false⟩)] p :=
    ⟨"a", Or.inl ⟨rfl, ⟨"x", false⟩, ⟨"y", false⟩, rfl, rfl, rfl, by decide⟩⟩
  exact ⟨hc, (collision_rejects_whole_plan hashId okAll Filters.trivialF false
    [("a", ⟨"x", false⟩)] [("a", ⟨"y", false⟩)] hc).1.1⟩

/-- C3: a path present only in the target index is never deleted or modified
by push or pull — for push, a path absent locally keeps its remote object
unchanged; for pull, a path absent remotely keeps its local object unchanged
(deletion only ever happens through the explicit `delete` operation). -/
theorem target_only_path_untouched (h : String → String) (ok : String → Bool)
    (f : Filters) (force dryrun : Bool) (l r : Tree) (p : String) :
    (l.lookup p = none →
      (RemoteStorage.push h ok f force dryrun l r).remoteTree.lookup p = r.lookup p) ∧
    (r.lookup p = none →
      (RemoteStorage.pull h ok f force dryrun l r).localTree.lookup p = l.lookup p) := by
  constructor
  · intro hl
    exact syncExec_newTarget_of_source_none h ok f force dryrun l r p hl
  · intro hr
    exact syncExec_newTarget_of_source_none h ok f force dryrun r l p hr

/-- Witness for C3: path `b` exists only on the remote; a real push leaves it
untouched. -/
theorem target_only_path_untouched_witness :
    Tree.lookup [("a", ⟨"x", false⟩)] "b" = none ∧
    (RemoteStorage.push hashId okAll Filters.trivialF false false
      [("a", ⟨"x", false⟩)] [("b", ⟨"y", false⟩)]).remoteTree.lookup "b" =
      Tree.lookup [("b", ⟨"y", false⟩)] "b" :=
  ⟨rfl, (target_only_path_untouched hashId okAll Filters.trivialF false false
    [("a", ⟨"x", false⟩)] [("b", ⟨"y", false⟩)] "b").1 rfl⟩

/-- C7: a type mismatch (directory on one side, file on the other) at a
participating path is a collision no matter what `force` is, and the whole
plan is rejected — both push and pull fail with a `CollisionError` that
contains the type-mismatch record, even when `force = true`. -/
theorem type_mismatch_always_fatal (h : String → String) (ok : String → Bool)
    (f : Filters) (force dryrun : Bool) (l r : Tree) (p : String)
    (o u : FileObject) (hl : l.lookup p = some o) (hr : r.lookup p = some u)
    (hd : o.isDir ≠ u.isDir) (hm : f.matches p = true) :
    ((RemoteStorage.push h ok f force dryrun l r).outcome =
        .error (validate (mkPlan h f l r) force) ∧
      (⟨p, .typeMismatch⟩ : CollisionRecord) ∈ validate (mkPlan h f l r) force) ∧
    ((RemoteStorage.pull h ok f force dryrun l r).outcome =
        .error (validate (mkPlan h f r l) force) ∧
      (⟨p, .typeMismatch⟩ : CollisionRecord) ∈ validate (mkPlan h f r l) force) := by
  have hmem1 : (⟨p, .typeMismatch⟩ : CollisionRecord) ∈ validate (mkPlan h f l r) force :=
    (mem_validate_type_iff h f l r force p).mpr ⟨hm, o, u, hl, hr, hd⟩
  have hmem2 : (⟨p, .typeMismatch⟩ : CollisionRecord) ∈ validate (mkPlan h f r l) force :=
    (mem_validate_type_iff h f r l force p).mpr ⟨hm, u, o, hr, hl, fun e => hd e.symm⟩
  have e1 := syncExec_of_fatal h ok f force dryrun l r (List.ne_nil_of_mem hmem1)
  have e2 := syncExec_of_fatal h ok f force dryrun r l (List.ne_nil_of_mem hmem2)
  exact ⟨⟨by simp [RemoteStorage.push, e1], hmem1⟩,
    ⟨by simp [RemoteStorage.pull, e2], hmem2⟩⟩

/-- Witness for C7: a file at `a` locally and a directory at `a` remotely,
with `force = true`: the push is still rejected. -/
theorem type_mismatch_always_fatal_witness :
    Tree.lookup [("a", ⟨"x", false⟩)] "a" = some ⟨"x", false⟩ ∧
    (RemoteStorage.push hashId okAll Filters.trivialF true false
        [("a", ⟨"x", false⟩)] [("a", ⟨"x", true⟩)]).outcome =
      .error (validate (mkPlan hashId Filters.trivialF
        [("a", ⟨"x", false⟩)] [("a", ⟨"x", true⟩)]) true) :=
  ⟨rfl, ((type_mismatch_always_fatal hashId okAll Filters.trivialF true false
    [("a", ⟨"x", false⟩)] [("a", ⟨"x", true⟩)] "a" ⟨"x", false⟩ ⟨"x", true⟩
    rfl rfl (by decide) rfl).1).1⟩

/-- Closed form of a real execution's summary: every transfer of the approved
batch is attempted; the succeeding paths end in `synced_files`, the failing
ones in `sync_errors`. -/
theorem syncExec_real_summary (h : String → String) (ok : String → Bool)
    (f : Filters) (force : Bool) (s t : Tree)
    (hv : validate (mkPlan h f s t) force = []) :
    ∃ sm, (syncExec h ok f force false s t).outcome = .ok sm ∧
      sm.synced_files = (planTransfers h f s t force).filter (fun p => ok p) ∧
      sm.sync_errors = (planTransfers h f s t force).filter (fun p => !(ok p)) := by
  rw [syncExec_real h ok f force s t hv]
  refine ⟨_, rfl, ?_, ?_⟩
  · rw [runTransfers_synced]
    show [] ++ _ = _
    rw [List.nil_append]
    apply List.filter_congr
    intro a ha
    rw [planTransfers_isSome h f s t force a ha, Bool.and_true]
  · rw [runTransfers_errors]
    show [] ++ _ = _
    rw [List.nil_append]
    apply List.filter_congr
    intro a ha
    rw [planTransfers_isSome h f s t force a ha, Bool.and_true]

/-- C2 fails as stated: a dryrun call is *not* always answered with a
`SyncSummary`.  With colliding trees `{a ↦ "x"}` / `{a ↦ "y"}` and
`force = false`, the dryrun push is rejected by the CollisionGuard (the
data flow validates the plan before the executor's dryrun branch), so the
call raises `CollisionError` instead of returning a summary. -/
theorem dryrun_returns_summary_cex :
    (RemoteStorage.push hashId okAll Filters.trivialF false true
        [("a", ⟨"x", false⟩)] [("a", ⟨"y", false⟩)]).outcome =
      .error [⟨"a", .hashMismatch⟩] := by rfl

/-- C2 (amended): for every plan that passes collision validation, a push or
pull call with `dryrun = true` returns a `SyncSummary` whose `synced_files`
is empty while `not_on_target`/`not_on_source` carry the plan's sets, invokes
the storage capability not at all (empty operation log), and leaves both the
local tree and the remote namespace exactly as they were. -/
theorem dryrun_pure (h : String → String) (ok : String → Bool) (f : Filters)
    (force : Bool) (l r : Tree) :
    (validate (mkPlan h f l r) force = [] →
      RemoteStorage.push h ok f force true l r =
        ⟨.ok { synced_files := []
               not_on_target := (mkPlan h f l r).toTransfer
               not_on_source := (mkPlan h f l r).notOnSource
               matched_source_files := (mkPlan h f l r).matchedSource
               matched_target_files := (mkPlan h f l r).matchedTarget
               collisions := []
               sync_errors := []
               dryrun := true }, l, r, []⟩) ∧
    (validate (mkPlan h f r l) force = [] →
      RemoteStorage.pull h ok f force true l r =
        ⟨.ok { synced_files := []
               not_on_target := (mkPlan h f r l).toTransfer
               not_on_source := (mkPlan h f r l).notOnSource
               matched_source_files := (mkPlan h f r l).matchedSource
               matched_target_files := (mkPlan h f r l).matchedTarget
               collisions := []
               sync_errors := []
               dryrun := true }, l, r, []⟩) := by
  constructor
  · intro hv
    simp [RemoteStorage.push, syncExec_dryrun h ok f force l r hv]
  · intro hv
    simp [RemoteStorage.pull, syncExec_dryrun h ok f force r l hv]

/-- Witness for the amended C2: a concrete collision-free dryrun push returns
the intention-only summary and mutates nothing. -/
theorem dryrun_pure_witness :
    validate (mkPlan hashId Filters.trivialF [("a", ⟨"x", false⟩)] []) false = [] ∧
    RemoteStorage.push hashId okAll Filters.trivialF false true
        [("a", ⟨"x", false⟩)] [] =
      ⟨.ok { synced_files := []
             not_on_target := (mkPlan hashId Filters.trivialF
               [("a", ⟨"x", false⟩)] []).toTransfer
             not_on_source := (mkPlan hashId Filters.trivialF
               [("a", ⟨"x", false⟩)] []).notOnSource
             matched_source_files := (mkPlan hashId Filters.trivialF
               [("a", ⟨"x", false⟩)] []).matchedSource
             matched_target_files := (mkPlan hashId Filters.trivialF
               [("a", ⟨"x", false⟩)] []).matchedTarget
             collisions := []
             sync_errors := []
             dryrun := true }, [("a", ⟨"x", false⟩)], [], []⟩ :=
  ⟨rfl, (dryrun_pure hashId okAll Filters.trivialF false
    [("a", ⟨"x", false⟩)] []).1 rfl⟩

/-- C4: a path (of either index) participates in a sync plan iff the
PatternFilter accepts it — (no include filters, or it matches one) and
(no exclude filters, or it matches none) — and in particular, with
`include_glob = "*.txt"` and `exclude_regex = ".*secret.*"`, the path
`secret.txt` is excluded even though the glob matches it, while `data.txt`
participates. -/
theorem filter_correctness :
    (∀ (h : String → String) (f : Filters) (s t : Tree) (p : String),
        p ∈ s.keys ∨ p ∈ t.keys →
        (p ∈ (mkPlan h f s t).paths ↔ f.matches p = true)) ∧
    globMatches "*.txt" "secret.txt" = true ∧
    Filters.matches ⟨some "*.txt", none, none, some ".*secret.*"⟩ "secret.txt" = false ∧
    "secret.txt" ∉ (mkPlan hashId ⟨some "*.txt", none, none, some ".*secret.*"⟩
        [("secret.txt", ⟨"s", false⟩), ("data.txt", ⟨"d", false⟩)] []).paths ∧
    "data.txt" ∈ (mkPlan hashId ⟨some "*.txt", none, none, some ".*secret.*"⟩
        [("secret.txt", ⟨"s", false⟩), ("data.txt", ⟨"d", false⟩)] []).paths := by
  refine ⟨?_, by decide, by decide, by decide, by decide⟩
  intro h f s t p hun
  rw [mem_plan_paths_iff, mem_filteredPaths]
  exact ⟨fun hx => hx.2, fun hm => ⟨hun, hm⟩⟩

/-- Witness for C4's quantified part at a concrete tree and path. -/
theorem filter_correctness_witness :
    ("a" ∈ Tree.keys [("a", ⟨"x", false⟩)] ∨ "a" ∈ Tree.keys []) ∧
    ("a" ∈ (mkPlan hashId Filters.trivialF [("a", ⟨"x", false⟩)] []).paths ↔
      Filters.trivialF.matches "a" = true) :=
  ⟨by decide, filter_correctness.1 hashId Filters.trivialF
    [("a", ⟨"x", false⟩)] [] "a" (by decide)⟩

/-- C8: during real (non-dryrun) execution of an approved plan, per-path
transfer failures are recorded in the summary's error set and do not abort
the batch: the caller always receives a `SyncSummary` (no exception), in
which `synced_files` holds exactly the transfers the capability completed
and `sync_errors` exactly the ones it failed — every action of the plan was
attempted. -/
theorem transfer_failures_recorded (h : String → String) (ok : String → Bool)
    (f : Filters) (force : Bool) (l r : Tree) :
    (validate (mkPlan h f l r) force = [] →
      ∃ sm, (RemoteStorage.push h ok f force false l r).outcome = .ok sm ∧
        sm.synced_files = (planTransfers h f l r force).filter (fun p => ok p) ∧
        sm.sync_errors = (planTransfers h f l r force).filter (fun p => !(ok p))) ∧
    (validate (mkPlan h f r l) force = [] →
      ∃ sm, (RemoteStorage.pull h ok f force false l r).outcome = .ok sm ∧
        sm.synced_files = (planTransfers h f r l force).filter (fun p => ok p) ∧
        sm.sync_errors = (planTransfers h f r l force).filter (fun p => !(ok p))) := by
  constructor
  · intro hv
    exact syncExec_real_summary h ok f force l r hv
  · intro hv
    exact syncExec_real_summary h ok f force r l hv

/-- Witness for C8: two local-only files, the capability failing on exactly
one of them — the other is still synced, the failure lands in the error set. -/
theorem transfer_failures_recorded_witness :
    validate (mkPlan hashId Filters.trivialF
      [("a", ⟨"x", false⟩), ("b", ⟨"y", false⟩)] []) false = [] ∧
    ∃ sm, (RemoteStorage.push hashId (fun p => p ≠ "a") Filters.trivialF false false
        [("a", ⟨"x", false⟩), ("b", ⟨"y", false⟩)] []).outcome = .ok sm ∧
      sm.synced_files = (planTransfers hashId Filters.trivialF
        [("a", ⟨"x", false⟩), ("b", ⟨"y", false⟩)] [] false).filter
          (fun p => (fun q => decide (q ≠ "a")) p) ∧
      sm.sync_errors = (planTransfers hashId Filters.trivialF
        [("a", ⟨"x", false⟩), ("b", ⟨"y", false⟩)] [] false).filter
          (fun p => !((fun q => decide (q ≠ "a")) p)) :=
  ⟨rfl, (transfer_failures_recorded hashId (fun p => p ≠ "a") Filters.trivialF false
    [("a", ⟨"x", false⟩), ("b", ⟨"y", false⟩)] []).1 rfl⟩

/-- C10: if the two trees' content hashes (and types) agree on every local
path, a push with `force = true` still transfers nothing — `force` only
changes what happens to hash-mismatch collisions, it never re-sends content
whose hashes are equal. -/
theorem force_does_not_retransfer (h : String → String) (ok : String → Bool)
    (f : Filters) (l r : Tree)
    (hagree : ∀ p o, l.lookup p = some o →
      ∃ u, r.lookup p = some u ∧ u.isDir = o.isDir ∧ h u.bytes = h o.bytes) :
    ∃ sm, (RemoteStorage.push h ok f true false l r).outcome = .ok sm ∧
      sm.synced_files = [] := by
  have hcl : ∀ p, classify h l r p ≠ .sourceOnly ∧ classify h l r p ≠ .conflict ∧
      classify h l r p ≠ .typeConflict := by
    intro p
    rcases hl : l.lookup p with _ | o
    · rcases hr : r.lookup p with _ | u <;> simp [classify, hl, hr]
    · obtain ⟨u, hr, hdir, hh⟩ := hagree p o hl
      have hun : classify h l r p = .unchanged := by
        unfold classify
        rw [hl, hr]
        dsimp only
        rw [if_neg (by simp [hdir]), if_pos hh.symm]
      rw [hun]
      exact ⟨PathClass.noConfusion, PathClass.noConfusion, PathClass.noConfusion⟩
  have hTT : (mkPlan h f l r).toTransfer = [] := by
    rw [List.eq_nil_iff_forall_not_mem]
    intro a ha
    exact (hcl a).1 ((mem_toTransfer_iff h f l r a).mp ha).2
  have hC : (mkPlan h f l r).conflicts = [] := by
    rw [List.eq_nil_iff_forall_not_mem]
    intro a ha
    exact (hcl a).2.1 ((mem_conflicts_iff h f l r a).mp ha).2
  have hTC : (mkPlan h f l r).typeConflicts = [] := by
    rw [List.eq_nil_iff_forall_not_mem]
    intro a ha
    exact (hcl a).2.2 ((mem_typeConflicts_iff h f l r a).mp ha).2
  have hv : validate (mkPlan h f l r) true = [] :=
    (validate_eq_nil_iff _ _).mpr ⟨hTC, fun hfc => Bool.noConfusion hfc⟩
  obtain ⟨sm, hout, hsy, _⟩ := syncExec_real_summary h ok f true l r hv
  refine ⟨sm, hout, ?_⟩
  rw [hsy]
  unfold planTransfers
  rw [hTT, hC]
  simp

/-- Witness for C10: identical one-file trees, `force = true` — nothing is
transferred. -/
theorem force_does_not_retransfer_witness :
    (∀ p o, Tree.lookup [("a", ⟨"x", false⟩)] p = some o →
      ∃ u, Tree.lookup [("a", ⟨"x", false⟩)] p = some u ∧
        u.isDir = o.isDir ∧ hashId u.bytes = hashId o.bytes) ∧
    ∃ sm, (RemoteStorage.push hashId okAll Filters.trivialF true false
        [("a", ⟨"x", false⟩)] [("a", ⟨"x", false⟩)]).outcome = .ok sm ∧
      sm.synced_files = [] := by
  have hagree : ∀ p o, Tree.lookup [("a", ⟨"x", false⟩)] p = some o →
      ∃ u, Tree.lookup [("a", ⟨"x", false⟩)] p = some u ∧
        u.isDir = o.isDir ∧ hashId u.bytes = hashId o.bytes :=
    fun p o hp => ⟨o, hp, rfl, rfl⟩
  exact ⟨hagree, force_does_not_retransfer hashId okAll Filters.trivialF
    [("a", ⟨"x", false⟩)] [("a", ⟨"x", false⟩)] hagree⟩

/-- Transport of plan-domain membership along a target change, given the path
exists on the source. -/
theorem mem_filteredPaths_of_source (f : Filters) (s t t' : Tree) (q : String)
    (hq : q ∈ filteredPaths f s t') (hs : (s.lookup q).isSome = true) :
    q ∈ filteredPaths f s t := by
  rw [mem_filteredPaths] at hq ⊢
  exact ⟨Or.inl ((Tree.lookup_isSome_iff s q).mp hs), hq.2⟩

/-- After a real execution of an approved plan, the re-planned sync has no
fatal collision, and every path its transfer batch would touch is one the
capability had failed on (with a fully successful capability, the batch is
empty). -/
theorem post_exec (h : String → String) (ok : String → Bool) (f : Filters)
    (force : Bool) (s t : Tree)
    (hv : validate (mkPlan h f s t) force = []) :
    validate (mkPlan h f s
      (runTransfers s ok (planTransfers h f s t force) ⟨t, [], [], []⟩).target) force = [] ∧
    ∀ q ∈ planTransfers h f s
      (runTransfers s ok (planTransfers h f s t force) ⟨t, [], [], []⟩).target force,
      ok q = false := by
  set tr := planTransfers h f s t force with htr
  set t' := (runTransfers s ok tr ⟨t, [], [], []⟩).target with ht'
  have hTC1 : (mkPlan h f s t).typeConflicts = [] := ((validate_eq_nil_iff _ _).mp hv).1
  have hC1 : force = false → (mkPlan h f s t).conflicts = [] :=
    ((validate_eq_nil_iff _ _).mp hv).2
  have hmem : ∀ q o, q ∈ tr → ok q = true → s.lookup q = some o → t'.lookup q = some o :=
    fun q o hq hok hs => runTransfers_lookup_mem s ok tr ⟨t, [], [], []⟩ q o hq hok hs
  have hnm : ∀ q, q ∉ tr → t'.lookup q = t.lookup q :=
    fun q hq => runTransfers_lookup_not_mem s ok tr ⟨t, [], [], []⟩ q hq
  have hnok : ∀ q, ok q = false → t'.lookup q = t.lookup q :=
    fun q hq => runTransfers_lookup_not_ok s ok tr ⟨t, [], [], []⟩ q hq
  have hkey : ∀ q, classify h s t' q = .unchanged ∨
      classify h s t' q = classify h s t q := by
    intro q
    by_cases hqtr : q ∈ tr
    · rcases hok : ok q with _ | _
      · exact Or.inr (classify_congr h s q (hnok q hok))
      · rcases hs : s.lookup q with _ | o
        · exact absurd (planTransfers_isSome h f s t force q hqtr) (by simp [hs])
        · exact Or.inl (classify_eq_unchanged_of_same h s t' q o hs (hmem q o hqtr hok hs))
    · exact Or.inr (classify_congr h s q (hnm q hqtr))
  constructor
  · refine (validate_eq_nil_iff _ _).mpr ⟨?_, ?_⟩
    · rw [List.eq_nil_iff_forall_not_mem]
      intro q hq
      obtain ⟨hqf, hqc⟩ := (mem_typeConflicts_iff h f s t' q).mp hq
      rcases hkey q with hun | hcongr
      · rw [hun] at hqc
        exact PathClass.noConfusion hqc
      · rw [hcongr] at hqc
        obtain ⟨o, u, hso, -, -⟩ := (classify_eq_typeConflict_iff h s t q).mp hqc
        have hqf1 : q ∈ filteredPaths f s t :=
          mem_filteredPaths_of_source f s t t' q hqf (by simp [hso])
        have hmem1 : q ∈ (mkPlan h f s t).typeConflicts :=
          (mem_typeConflicts_iff h f s t q).mpr ⟨hqf1, hqc⟩
        rw [hTC1] at hmem1
        exact absurd hmem1 (List.not_mem_nil q)
    · intro hfc
      rw [List.eq_nil_iff_forall_not_mem]
      intro q hq
      obtain ⟨hqf, hqc⟩ := (mem_conflicts_iff h f s t' q).mp hq
      rcases hkey q with hun | hcongr
      · rw [hun] at hqc
        exact PathClass.noConfusion hqc
      · rw [hcongr] at hqc
        obtain ⟨o, u, hso, -, -⟩ := (classify_eq_conflict_iff h s t q).mp hqc
        have hqf1 : q ∈ filteredPaths f s t :=
          mem_filteredPaths_of_source f s t t' q hqf (by simp [hso])
        have hmem1 : q ∈ (mkPlan h f s t).conflicts :=
          (mem_conflicts_iff h f s t q).mpr ⟨hqf1, hqc⟩
        rw [hC1 hfc] at hmem1
        exact absurd hmem1 (List.not_mem_nil q)
  · intro q hq
    have hcls : (q ∈ filteredPaths f s t' ∧ classify h s t' q = .sourceOnly) ∨
        (force = true ∧ q ∈ filteredPaths f s t' ∧ classify h s t' q = .conflict) := by
      unfold planTransfers at hq
      rcases List.mem_append.mp hq with hh | hh
      · exact Or.inl ((mem_toTransfer_iff h f s t' q).mp hh)
      · by_cases hf : force = true
        · rw [hf] at hh
          simp only [if_true] at hh
          exact Or.inr ⟨hf, (mem_conflicts_iff h f s t' q).mp hh⟩
        · rw [Bool.not_eq_true] at hf
          rw [hf] at hh
          simp at hh
    rcases hok : ok q with _ | _
    · rfl
    · exfalso
      by_cases hqtr : q ∈ tr
      · rcases hs : s.lookup q with _ | o
        · exact absurd (planTransfers_isSome h f s t force q hqtr) (by simp [hs])
        · have hun := classify_eq_unchanged_of_same h s t' q o hs (hmem q o hqtr hok hs)
          rcases hcls with ⟨-, hc⟩ | ⟨-, -, hc⟩ <;> rw [hun] at hc <;>
            exact PathClass.noConfusion hc
      · have hcongr := classify_congr h s q (hnm q hqtr)
        rcases hcls with ⟨hqf, hc⟩ | ⟨hf, hqf, hc⟩
        · rw [hcongr] at hc
          obtain ⟨⟨o, hso⟩, -⟩ := (classify_eq_sourceOnly_iff h s t q).mp hc
          have hqf1 : q ∈ filteredPaths f s t :=
            mem_filteredPaths_of_source f s t t' q hqf (by simp [hso])
          exact hqtr (List.mem_append_left _
            ((mem_toTransfer_iff h f s t q).mpr ⟨hqf1, hc⟩))
        · rw [hcongr] at hc
          obtain ⟨o, u, hso, -, -⟩ := (classify_eq_conflict_iff h s t q).mp hc
          have hqf1 : q ∈ filteredPaths f s t :=
            mem_filteredPaths_of_source f s t t' q hqf (by simp [hso])
          have : q ∈ tr := by
            rw [htr]
            unfold planTransfers
            rw [hf]
            exact List.mem_append_right _
              (by simpa using (mem_conflicts_iff h f s t q).mpr ⟨hqf1, hc⟩)
          exact hqtr this

/-- Repeating a successful sync against its own result transfers nothing. -/
theorem syncExec_repeat (h : String → String) (ok : String → Bool) (f : Filters)
    (force dryrun : Bool) (s t : Tree)
    (hok1 : ∃ s₁, (syncExec h ok f force dryrun s t).outcome = .ok s₁) :
    ∃ s₂, (syncExec h ok f force dryrun s
        (syncExec h ok f force dryrun s t).newTarget).outcome = .ok s₂ ∧
      s₂.synced_files = [] := by
  have hv := outcome_ok_validate_nil h ok f force dryrun s t hok1
  cases dryrun with
  | true =>
      have hnt : (syncExec h ok f force true s t).newTarget = t := by
        rw [syncExec_dryrun h ok f force s t hv]
      rw [hnt, syncExec_dryrun h ok f force s t hv]
      exact ⟨_, rfl, rfl⟩
  | false =>
      have hnt : (syncExec h ok f force false s t).newTarget =
          (runTransfers s ok (planTransfers h f s t force) ⟨t, [], [], []⟩).target := by
        rw [syncExec_real h ok f force s t hv]
      obtain ⟨hv2, hko⟩ := post_exec h ok f force s t hv
      rw [hnt]
      obtain ⟨sm, ho, hsy, -⟩ := syncExec_real_summary h ok f force s _ hv2
      refine ⟨sm, ho, ?_⟩
      rw [hsy]
      refine List.filter_eq_nil_iff.mpr (fun a ha => ?_)
      rw [hko a ha]
      simp

/-- C5: with the local and remote trees left untouched between the two calls,
running the same push (or pull) twice in a row syncs nothing the second time —
the second call succeeds and returns a `SyncSummary` with
`synced_files = ∅`. -/
theorem sync_idempotent (h : String → String) (ok : String → Bool) (f : Filters)
    (force dryrun : Bool) (l r : Tree) :
    ((∃ s₁, (RemoteStorage.push h ok f force dryrun l r).outcome = .ok s₁) →
      ∃ s₂, (RemoteStorage.push h ok f force dryrun
          (RemoteStorage.push h ok f force dryrun l r).localTree
          (RemoteStorage.push h ok f force dryrun l r).remoteTree).outcome = .ok s₂ ∧
        s₂.synced_files = []) ∧
    ((∃ s₁, (RemoteStorage.pull h ok f force dryrun l r).outcome = .ok s₁) →
      ∃ s₂, (RemoteStorage.pull h ok f force dryrun
          (RemoteStorage.pull h ok f force dryrun l r).localTree
          (RemoteStorage.pull h ok f force dryrun l r).remoteTree).outcome = .ok s₂ ∧
        s₂.synced_files = []) := by
  exact ⟨fun h1 => syncExec_repeat h ok f force dryrun l r h1,
    fun h1 => syncExec_repeat h ok f force dryrun r l h1⟩

/-- Witness for C5: pushing `{a ↦ "x"}` into an empty remote, then pushing
again — the second call syncs nothing. -/
theorem sync_idempotent_witness :
    (∃ s₁, (RemoteStorage.push hashId okAll Filters.trivialF false false
      [("a", ⟨"x", false⟩)] []).outcome = .ok s₁) ∧
    ∃ s₂, (RemoteStorage.push hashId okAll Filters.trivialF false false
        (RemoteStorage.push hashId okAll Filters.trivialF false false
          [("a", ⟨"x", false⟩)] []).localTree
        (RemoteStorage.push hashId okAll Filters.trivialF false false
          [("a", ⟨"x", false⟩)] []).remoteTree).outcome = .ok s₂ ∧
      s₂.synced_files = [] := by
  have h1 : ∃ s₁, (RemoteStorage.push hashId okAll Filters.trivialF false false
      [("a", ⟨"x", false⟩)] []).outcome = .ok s₁ := ⟨_, rfl⟩
  exact ⟨h1, (sync_idempotent hashId okAll Filters.trivialF false false
    [("a", ⟨"x", false⟩)] []).1 h1⟩

/-- Pushing a tree into an empty namespace succeeds and makes the target
pointwise identical to the source. -/
theorem syncExec_into_empty (h : String → String) (S : Tree) :
    validate (mkPlan h Filters.trivialF S []) false = [] ∧
    (∃ sm, (syncExec h okAll Filters.trivialF false false S []).outcome = .ok sm) ∧
    ∀ p, (syncExec h okAll Filters.trivialF false false S []).newTarget.lookup p =
      S.lookup p := by
  have hcl : ∀ p, classify h S [] p ≠ .conflict ∧ classify h S [] p ≠ .typeConflict := by
    intro p
    rcases hS : S.lookup p with _ | o <;> simp [classify, hS]
  have hv : validate (mkPlan h Filters.trivialF S []) false = [] := by
    refine (validate_eq_nil_iff _ _).mpr ⟨?_, fun _ => ?_⟩
    · rw [List.eq_nil_iff_forall_not_mem]
      intro a ha
      exact (hcl a).2 ((mem_typeConflicts_iff h Filters.trivialF S [] a).mp ha).2
    · rw [List.eq_nil_iff_forall_not_mem]
      intro a ha
      exact (hcl a).1 ((mem_conflicts_iff h Filters.trivialF S [] a).mp ha).2
  refine ⟨hv, ⟨_, by rw [syncExec_real h okAll Filters.trivialF false S [] hv]⟩, ?_⟩
  intro p
  rw [syncExec_real h okAll Filters.trivialF false S [] hv]
  rcases hS : S.lookup p with _ | o
  · exact (runTransfers_lookup_none S okAll _ ⟨[], [], [], []⟩ p hS).trans rfl
  · have hmemf : p ∈ filteredPaths Filters.trivialF S [] :=
      (mem_filteredPaths Filters.trivialF S [] p).mpr
        ⟨Or.inl ((Tree.lookup_isSome_iff S p).mp (by simp [hS])), trivialF_matches p⟩
    have hcls : classify h S [] p = .sourceOnly :=
      (classify_eq_sourceOnly_iff h S [] p).mpr ⟨⟨o, hS⟩, rfl⟩
    have hptr : p ∈ planTransfers h Filters.trivialF S [] false :=
      List.mem_append_left _
        ((mem_toTransfer_iff h Filters.trivialF S [] p).mpr ⟨hmemf, hcls⟩)
    exact runTransfers_lookup_mem S okAll _ ⟨[], [], [], []⟩ p o hptr rfl hS

/-- C6: pushing a local subtree `T` into an (empty) remote namespace with no
filters succeeds, and a subsequent pull of that namespace into an empty local
directory succeeds and reproduces `T` exactly — pointwise equal objects, so
byte-for-byte and hash-for-hash identical. -/
theorem push_pull_roundtrip (h : String → String) (T : Tree) :
    (∃ sm, (RemoteStorage.push h okAll Filters.trivialF false false T []).outcome =
      .ok sm) ∧
    (∃ sm, (RemoteStorage.pull h okAll Filters.trivialF false false []
        (RemoteStorage.push h okAll Filters.trivialF false false T []).remoteTree).outcome =
      .ok sm) ∧
    ∀ p, (RemoteStorage.pull h okAll Filters.trivialF false false []
        (RemoteStorage.push h okAll Filters.trivialF false false T []).remoteTree).localTree.lookup p =
      T.lookup p := by
  obtain ⟨-, hok1, hR⟩ := syncExec_into_empty h T
  obtain ⟨-, hok2, hL⟩ := syncExec_into_empty h
    ((syncExec h okAll Filters.trivialF false false T []).newTarget)
  exact ⟨hok1, hok2, fun p => (hL p).trans (hR p)⟩

/-- Lookup in a tree after filtering out the entries satisfying `cond`. -/
theorem lookup_filter_not (r : Tree) (cond : String → Prop) [DecidablePred cond]
    (q : String) :
    Tree.lookup (r.filter (fun e => !decide (cond e.1))) q =
      if cond q then none else r.lookup q := by
  induction r with
  | nil => simp [Tree.lookup]
  | cons e r ih =>
      obtain ⟨q', o⟩ := e
      by_cases hc : cond q'
      · rw [List.filter_cons_of_neg (by simp [hc]), ih]
        by_cases hq : cond q
        · simp [hq]
        · have hne : q' ≠ q := fun he => hq (he ▸ hc)
          simp [hq, Tree.lookup, hne]
      · rw [List.filter_cons_of_pos (by simp [hc])]
        by_cases hq'q : q' = q
        · subst hq'q
          simp [Tree.lookup, hc]
        · simp only [Tree.lookup, if_neg hq'q]
          exact ih

/-- Lookup after an explicit `delete`: the deleted path (and everything under
its namespace) is gone, everything else is untouched. -/
theorem delete_lookup (path : String) (r : Tree) (q : String) :
    (RemoteStorage.delete path r).2.lookup q =
      if q = path ∨ (path ++ "/").isPrefixOf q = true then none else r.lookup q := by
  unfold RemoteStorage.delete
  exact lookup_filter_not r (fun x => x = path ∨ (path ++ "/").isPrefixOf x = true) q

/-- C9: push a local tree `T` to a fresh namespace, delete exactly one remote
object `p` (no other object lives under `p/`), then push again with the same
arguments: the second push succeeds and transfers exactly the deleted file —
`synced_files = [p]`. -/
theorem delete_isolation (h : String → String) (T : Tree) (p : String)
    (hp : (T.lookup p).isSome = true)
    (hnest : ∀ q ∈ T.keys, (p ++ "/").isPrefixOf q = false) :
    ∃ sm, (RemoteStorage.push h okAll Filters.trivialF false false T
        (RemoteStorage.delete p
          (RemoteStorage.push h okAll Filters.trivialF false false T []).remoteTree).2).outcome =
      .ok sm ∧ sm.synced_files = [p] := by
  have hR1 : ∀ q, (syncExec h okAll Filters.trivialF false false T []).newTarget.lookup q =
      T.lookup q := (syncExec_into_empty h T).2.2
  set R2 := (RemoteStorage.delete p
    (syncExec h okAll Filters.trivialF false false T []).newTarget).2 with hR2def
  have hR2 : ∀ q, R2.lookup q =
      if q = p ∨ (p ++ "/").isPrefixOf q = true then none else T.lookup q := by
    intro q
    rw [hR2def, delete_lookup]
    split_ifs
    · rfl
    · exact hR1 q
  obtain ⟨o, ho⟩ := Option.isSome_iff_exists.mp hp
  have hclassP : classify h T R2 p = .sourceOnly := by
    refine (classify_eq_sourceOnly_iff h T R2 p).mpr ⟨⟨o, ho⟩, ?_⟩
    rw [hR2 p, if_pos (Or.inl rfl)]
  have hclassQ : ∀ q, q ≠ p → classify h T R2 q ≠ .sourceOnly ∧
      classify h T R2 q ≠ .conflict ∧ classify h T R2 q ≠ .typeConflict := by
    intro q hqp
    rcases hT : T.lookup q with _ | u
    · have : classify h T R2 q = .targetOnly ∨ classify h T R2 q = .absent := by
        unfold classify
        rw [hT]
        rcases R2.lookup q <;> simp
      rcases this with hh | hh <;> simp [hh]
    · have hpre : (p ++ "/").isPrefixOf q = false :=
        hnest q ((Tree.lookup_isSome_iff T q).mp (by simp [hT]))
      have hR2q : R2.lookup q = some u := by
        rw [hR2 q, if_neg]
        · exact hT
        · rintro (hc | hc)
          · exact hqp hc
          · rw [hpre] at hc
            exact Bool.noConfusion hc
      have hun := classify_eq_unchanged_of_same h T R2 q u hT hR2q
      simp [hun]
  have hv2 : validate (mkPlan h Filters.trivialF T R2) false = [] := by
    refine (validate_eq_nil_iff _ _).mpr ⟨?_, fun _ => ?_⟩
    · rw [List.eq_nil_iff_forall_not_mem]
      intro a ha
      have hac := ((mem_typeConflicts_iff h Filters.trivialF T R2 a).mp ha).2
      by_cases hap : a = p
      · rw [hap, hclassP] at hac
        exact PathClass.noConfusion hac
      · exact (hclassQ a hap).2.2 hac
    · rw [List.eq_nil_iff_forall_not_mem]
      intro a ha
      have hac := ((mem_conflicts_iff h Filters.trivialF T R2 a).mp ha).2
      by_cases hap : a = p
      · rw [hap, hclassP] at hac
        exact PathClass.noConfusion hac
      · exact (hclassQ a hap).2.1 hac
  have hpmem : p ∈ filteredPaths Filters.trivialF T R2 :=
    (mem_filteredPaths Filters.trivialF T R2 p).mpr
      ⟨Or.inl ((Tree.lookup_isSome_iff T p).mp hp), trivialF_matches p⟩
  have hTT : (mkPlan h Filters.trivialF T R2).toTransfer = [p] := by
    show (filteredPaths Filters.trivialF T R2).filter
      (fun q => classify h T R2 q = PathClass.sourceOnly) = [p]
    refine filter_eq_singleton _ _ p (nodup_filteredPaths Filters.trivialF T R2)
      hpmem (by simp [hclassP]) ?_
    intro b hb hpb
    by_cases hbp : b = p
    · exact hbp
    · exact absurd (of_decide_eq_true hpb) ((hclassQ b hbp).1)
  have htr2 : planTransfers h Filters.trivialF T R2 false = [p] := by
    unfold planTransfers
    rw [hTT]
    simp
  obtain ⟨sm, hout, hsy, -⟩ := syncExec_real_summary h okAll Filters.trivialF false T R2 hv2
  refine ⟨sm, hout, ?_⟩
  rw [hsy, htr2]
  rfl

/-- Witness for C9: the spec's three-file scenario — push `resources/` with
files `sample.txt`, `a.txt`, `b.txt`, delete `sample.txt` remotely, push
again: exactly `sample.txt` is re-synced. -/
theorem delete_isolation_witness :
    (Tree.lookup [("sample.txt", ⟨"s", false⟩), ("a.txt", ⟨"a", false⟩),
       ("b.txt", ⟨"b", false⟩)] "sample.txt").isSome = true ∧
    ∃ sm, (RemoteStorage.push hashId okAll Filters.trivialF false false
        [("sample.txt", ⟨"s", false⟩), ("a.txt", ⟨"a", false⟩), ("b.txt", ⟨"b", false⟩)]
        (RemoteStorage.delete "sample.txt"
          (RemoteStorage.push hashId okAll Filters.trivialF false false
            [("sample.txt", ⟨"s", false⟩), ("a.txt", ⟨"a", false⟩),
             ("b.txt", ⟨"b", false⟩)] []).remoteTree).2).outcome = .ok sm ∧
      sm.synced_files = ["sample.txt"] := by
  refine ⟨by decide, delete_isolation hashId
    [("sample.txt", ⟨"s", false⟩), ("a.txt", ⟨"a", false⟩), ("b.txt", ⟨"b", false⟩)]
    "sample.txt" (by decide) (by decide)⟩

end Accsr
